import Mathlib

/-
Verification of the token-based distributed mutual-exclusion core
(`modules/Server/Lock/distributedLock.py`), the RPC substrate
(`modules/Common/orb.py`) and the membership table
(`modules/Server/peerList.py`).

The Python class `DistributedLock` is embedded at two granularities:

* a protocol-level view (`Lock`, `Config`, `Step`) in which the `token`
  and `request` dictionaries are total maps over the fixed peer set
  `Fin n` (on the traces considered, all dictionary lookups succeed, so
  the totalisation is behaviour-preserving) and each public method call
  or message delivery is one atomic step, matching the fact that every
  method body runs under the peer-list mutex;

* a dictionary-level view (`DLock`, `dget`, `dset`) that models Python
  dictionaries as insertion-ordered association lists with unique keys,
  used for the claims about which keys the maps contain
  (`DistributedLock.initialize`, `DistributedLock.register_peer`).
-/

inductive LockState
  | NO_TOKEN
  | TOKEN_PRESENT
  | TOKEN_HELD
deriving DecidableEq, Repr

/-- Protocol-level state of one `DistributedLock` instance over the peer
set `Fin n`: fields `time`, `token`, `request`, `state` of the Python
class, with the two dictionaries totalised over the peer ids. -/
structure Lock (n : Nat) where
  time : Nat
  token : Fin n → Nat
  request : Fin n → Nat
  state : LockState

/-- The statement `self.time = self.time + 1` performed at the top of
`DistributedLock.acquire`. -/
def bump {n : Nat} (l : Lock n) : Lock n :=
  { l with time := l.time + 1 }

/-- `DistributedLock.obtain_token` (lines 164-174): replace the local
token dictionary by the received snapshot (`self.token =
self._unprepare(token)`); if `self.time > self.token[self.owner.id]`
then stamp `token[own] := time` and go to `TOKEN_HELD`, else go to
`TOKEN_PRESENT`.  `own` is `self.owner.id`. -/
def obtain_token {n : Nat} (own : Fin n) (l : Lock n) (snap : Fin n → Nat) : Lock n :=
  if l.time > snap own then
    { l with token := Function.update snap own l.time, state := LockState.TOKEN_HELD }
  else
    { l with token := snap, state := LockState.TOKEN_PRESENT }

/-- `DistributedLock.request_token` (lines 143-162):
`self.request[pid] = time if time > self.request[pid] else
self.request[pid]`, then if the state is `TOKEN_PRESENT` the current
token dictionary is sent to `pid` (`get_peers()[pid].obtain_token(...)`)
and the state becomes `NO_TOKEN`.  The second component is the snapshot
sent to `pid`, if any. -/
def request_token {n : Nat} (l : Lock n) (t : Nat) (pid : Fin n) :
    Lock n × Option (Fin n → Nat) :=
  let l1 : Lock n :=
    { l with request :=
        (Function.update l.request pid (if t > l.request pid then t else l.request pid)) }
  if l1.state = LockState.TOKEN_PRESENT then
    ({ l1 with state := LockState.NO_TOKEN }, some l1.token)
  else
    (l1, none)

/-- The `for peer in sorted(self.peer_list.get_peers())` loop body of
`DistributedLock.release` (lines 133-139): scan the given id list; at
the first peer with `self.request[peer] > self.token[peer]`, set the
state to `NO_TOKEN`, stamp `self.token[self.owner.id] = self.time`,
send the whole token dictionary to that peer and stop. -/
def releaseScan {n : Nat} (own : Fin n) (l : Lock n) :
    List (Fin n) → Lock n × Option (Fin n × (Fin n → Nat))
  | [] => (l, none)
  | p :: ps =>
    if l.request p > l.token p then
      let tok := Function.update l.token own l.time
      ({ l with state := LockState.NO_TOKEN, token := tok }, some (p, tok))
    else
      releaseScan own l ps

/-- `DistributedLock.release` (lines 114-141): a no-op unless the state
is `TOKEN_HELD`; otherwise set the state to `TOKEN_PRESENT` and run the
scan over the sorted peer ids.  `peers` is the key list of the
membership table; `sorted(...)` in Python is an ascending stable sort,
embedded as `List.insertionSort`. -/
def release {n : Nat} (own : Fin n) (peers : List (Fin n)) (l : Lock n) :
    Lock n × Option (Fin n × (Fin n → Nat)) :=
  if l.state = LockState.TOKEN_HELD then
    releaseScan own { l with state := LockState.TOKEN_PRESENT }
      (List.insertionSort (fun a b => a ≤ b) peers)
  else
    (l, none)

/-- Global configuration of the mesh: the lock of each of the `n`
peers, plus the in-flight `request_token` messages
(receiver, timestamp, sender) and the in-flight `obtain_token` messages
(receiver, token snapshot). -/
structure Config (n : Nat) where
  locks : Fin n → Lock n
  reqMsgs : List (Fin n × Nat × Fin n)
  tokMsgs : List (Fin n × (Fin n → Nat))

/-- The broadcast loop of `DistributedLock.acquire` in the `NO_TOKEN`
branch: one `request_token(self.time, self.owner.id)` message per
membership-table entry.  As deployed, the name server returns the
calling peer in `get_peers`, so the table holds every peer id. -/
def broadcast {n : Nat} (i : Fin n) (t : Nat) : List (Fin n × Nat × Fin n) :=
  (List.finRange n).map (fun j => (j, t, i))

/-- Messages produced by one `release` call. -/
def sendRel {n : Nat} : Option (Fin n × (Fin n → Nat)) → List (Fin n × (Fin n → Nat))
  | some pt => [pt]
  | none => []

/-- Messages produced by one `request_token` call, addressed to the
requesting peer `pid`. -/
def sendFwd {n : Nat} (dest : Fin n) : Option (Fin n → Nat) → List (Fin n × (Fin n → Nat))
  | some tok => [(dest, tok)]
  | none => []

/-- One interleaved step of the mesh: a local `acquire` or `release`
call on some peer, or the delivery of one in-flight `request_token` or
`obtain_token` message.  Each step is the atomic execution of the
corresponding Python method body. -/
inductive Step {n : Nat} : Config n → Config n → Prop
  | acquire_no_token (c : Config n) (i : Fin n)
      (h : (c.locks i).state = LockState.NO_TOKEN) :
      Step c
        { locks := Function.update c.locks i (bump (c.locks i)),
          reqMsgs := c.reqMsgs ++ broadcast i ((c.locks i).time + 1),
          tokMsgs := c.tokMsgs }
  | acquire_has_token (c : Config n) (i : Fin n)
      (h : (c.locks i).state ≠ LockState.NO_TOKEN) :
      Step c
        { locks := Function.update c.locks i
            (obtain_token i (bump (c.locks i)) (bump (c.locks i)).token),
          reqMsgs := c.reqMsgs,
          tokMsgs := c.tokMsgs }
  | release_step (c : Config n) (i : Fin n) (l' : Lock n)
      (snd : Option (Fin n × (Fin n → Nat)))
      (h : release i (List.finRange n) (c.locks i) = (l', snd)) :
      Step c
        { locks := Function.update c.locks i l',
          reqMsgs := c.reqMsgs,
          tokMsgs := c.tokMsgs ++ sendRel snd }
  | deliver_request (c : Config n) (pre post : List (Fin n × Nat × Fin n))
      (rcv : Fin n) (t : Nat) (sender : Fin n) (l' : Lock n)
      (snd : Option (Fin n → Nat))
      (hm : c.reqMsgs = pre ++ (rcv, t, sender) :: post)
      (h : request_token (c.locks rcv) t sender = (l', snd)) :
      Step c
        { locks := Function.update c.locks rcv l',
          reqMsgs := pre ++ post,
          tokMsgs := c.tokMsgs ++ sendFwd sender snd }
  | deliver_token (c : Config n) (pre post : List (Fin n × (Fin n → Nat)))
      (rcv : Fin n) (snap : Fin n → Nat)
      (hm : c.tokMsgs = pre ++ (rcv, snap) :: post) :
      Step c
        { locks := Function.update c.locks rcv
            (obtain_token rcv (c.locks rcv) snap),
          reqMsgs := c.reqMsgs,
          tokMsgs := pre ++ post }

/-- Per-peer state after `DistributedLock.initialize` as the protocol
level sees it: the designated initial holder `hld` is `TOKEN_PRESENT`,
everyone else `NO_TOKEN`; clocks and both maps start at zero. -/
def initLock {n : Nat} (hld : Fin n) (i : Fin n) : Lock n :=
  { time := 0,
    token := fun _ => 0,
    request := fun _ => 0,
    state := if i = hld then LockState.TOKEN_PRESENT else LockState.NO_TOKEN }

/-- Initial global configuration: per-peer initial locks, no messages
in flight. -/
def initConfig {n : Nat} (hld : Fin n) : Config n :=
  { locks := initLock hld, reqMsgs := [], tokMsgs := [] }

/-- A peer counts as a token location when its state is not
`NO_TOKEN`. -/
def holdsToken {n : Nat} (c : Config n) (i : Fin n) : Prop :=
  (c.locks i).state ≠ LockState.NO_TOKEN

/-- Token-conservation invariant: at most one token location among the
peers, no in-flight token while a peer has it, and at most one
in-flight token snapshot. -/
def TokenInv {n : Nat} (c : Config n) : Prop :=
  (∀ i j : Fin n, holdsToken c i → holdsToken c j → i = j) ∧
  (∀ i : Fin n, holdsToken c i → c.tokMsgs = []) ∧
  c.tokMsgs.length ≤ 1

/-- The state produced by `obtain_token` is never `NO_TOKEN`: both
branches of the method end in `TOKEN_HELD` or `TOKEN_PRESENT`. -/
theorem obtain_token_state_ne {n : Nat} (own : Fin n) (l : Lock n) (snap : Fin n → Nat) :
    (obtain_token own l snap).state ≠ LockState.NO_TOKEN := by
  unfold obtain_token
  split <;> simp

/-- `obtain_token` leaves `time` and `request` untouched. -/
theorem obtain_token_time_request {n : Nat} (own : Fin n) (l : Lock n) (snap : Fin n → Nat) :
    (obtain_token own l snap).time = l.time ∧
      (obtain_token own l snap).request = l.request := by
  unfold obtain_token
  split <;> simp

/-- Case analysis on `releaseScan`: either no peer on the list passes
the `request > token` test and the lock is returned unchanged with
nothing sent, or the scan stops at some peer `p`, the state becomes
`NO_TOKEN`, the token map gets the `own := time` stamp and that map is
sent to `p`. -/
theorem releaseScan_spec {n : Nat} (own : Fin n) (l : Lock n) (ps : List (Fin n)) :
    releaseScan own l ps = (l, none) ∨
      ∃ p, releaseScan own l ps =
        ({ l with state := LockState.NO_TOKEN,
                  token := Function.update l.token own l.time },
         some (p, Function.update l.token own l.time)) := by
  induction ps with
  | nil => exact Or.inl rfl
  | cons p ps ih =>
    by_cases hp : l.request p > l.token p
    · refine Or.inr ⟨p, ?_⟩
      simp [releaseScan, hp]
    · simpa [releaseScan, hp] using ih

/-- Case analysis on `release`: a no-op when the state is not
`TOKEN_HELD`; from `TOKEN_HELD` it ends in `TOKEN_PRESENT` sending
nothing, or in `NO_TOKEN` sending the stamped token map to one peer. -/
theorem release_spec {n : Nat} (own : Fin n) (peers : List (Fin n)) (l l' : Lock n)
    (snd : Option (Fin n × (Fin n → Nat)))
    (h : release own peers l = (l', snd)) :
    (l.state ≠ LockState.TOKEN_HELD ∧ l' = l ∧ snd = none) ∨
      (l.state = LockState.TOKEN_HELD ∧
        ((snd = none ∧ l'.state = LockState.TOKEN_PRESENT) ∨
          (∃ p tok, snd = some (p, tok) ∧ l'.state = LockState.NO_TOKEN))) := by
  unfold release at h
  by_cases hs : l.state = LockState.TOKEN_HELD
  · refine Or.inr ⟨hs, ?_⟩
    rw [if_pos hs] at h
    rcases releaseScan_spec own { l with state := LockState.TOKEN_PRESENT }
        (List.insertionSort (fun a b => a ≤ b) peers) with hc | ⟨p, hc⟩
    · rw [hc] at h
      obtain ⟨h1, h2⟩ := Prod.mk.injEq .. ▸ h
      exact Or.inl ⟨h2.symm, by rw [← h1]⟩
    · rw [hc] at h
      obtain ⟨h1, h2⟩ := Prod.mk.injEq .. ▸ h
      exact Or.inr ⟨p, Function.update
        { l with state := LockState.TOKEN_PRESENT }.token own
        { l with state := LockState.TOKEN_PRESENT }.time,
        h2.symm, by rw [← h1]⟩
  · rw [if_neg hs] at h
    obtain ⟨h1, h2⟩ := Prod.mk.injEq .. ▸ h
    exact Or.inl ⟨hs, h1.symm, h2.symm⟩

/-- Case analysis on `request_token`: the request entry for `pid` is
raised to the maximum of its old value and the incoming timestamp; from
`TOKEN_PRESENT` the token is forwarded unconditionally and the state
becomes `NO_TOKEN`; from any other state nothing is sent and the state
is unchanged. -/
theorem request_token_spec {n : Nat} (l : Lock n) (t : Nat) (pid : Fin n) (l' : Lock n)
    (snd : Option (Fin n → Nat))
    (h : request_token l t pid = (l', snd)) :
    (l.state = LockState.TOKEN_PRESENT ∧ l'.state = LockState.NO_TOKEN ∧
        snd = some l.token) ∨
      (l.state ≠ LockState.TOKEN_PRESENT ∧ l'.state = l.state ∧ snd = none) := by
  unfold request_token at h
  by_cases hs : l.state = LockState.TOKEN_PRESENT
  · simp only [hs, if_pos rfl] at h
    obtain ⟨h1, h2⟩ := Prod.mk.injEq .. ▸ h
    exact Or.inl ⟨hs, by rw [← h1], h2.symm⟩
  · simp only [if_neg hs] at h
    obtain ⟨h1, h2⟩ := Prod.mk.injEq .. ▸ h
    exact Or.inr ⟨hs, by rw [← h1], h2.symm⟩

/-- The invariant holds in any configuration with one `TOKEN_PRESENT`
peer, all other peers `NO_TOKEN`, and no token message in flight. -/
theorem tokenInv_init {n : Nat} (c : Config n) (hld : Fin n)
    (hstates : ∀ i : Fin n,
      (c.locks i).state = if i = hld then LockState.TOKEN_PRESENT else LockState.NO_TOKEN)
    (hmsg : c.tokMsgs = []) : TokenInv c := by
  have hloc : ∀ i : Fin n, holdsToken c i → i = hld := by
    intro i hi
    by_contra hne
    exact hi (by rw [hstates i, if_neg hne])
  refine ⟨?_, ?_, ?_⟩
  · intro i j hi hj
    rw [hloc i hi, hloc j hj]
  · intro i _
    exact hmsg
  · simp [hmsg]

/-- Preservation: every interleaved step keeps the token-conservation
invariant. -/
theorem tokenInv_step {n : Nat} {c c' : Config n} (hInv : TokenInv c) (hs : Step c c') :
    TokenInv c' := by
  obtain ⟨uniq, noMsg, msgLe⟩ := hInv
  cases hs with
  | acquire_no_token i h =>
    have hst : ∀ k : Fin n, ((Function.update c.locks i (bump (c.locks i))) k).state
        = (c.locks k).state := by
      intro k
      by_cases hk : k = i
      · subst hk
        simp [bump]
      · simp [Function.update_apply, hk]
    refine ⟨?_, ?_, msgLe⟩
    · intro k j hk hj
      simp only [holdsToken, hst] at hk hj
      exact uniq k j hk hj
    · intro k hk
      simp only [holdsToken, hst] at hk
      exact noMsg k hk
  | acquire_has_token i h =>
    have hTokI : holdsToken c i := h
    have hred : ∀ m : Fin n, holdsToken
        { locks := Function.update c.locks i
            (obtain_token i (bump (c.locks i)) (bump (c.locks i)).token),
          reqMsgs := c.reqMsgs, tokMsgs := c.tokMsgs } m → holdsToken c m := by
      intro m hm
      by_cases hmi : m = i
      · exact hmi ▸ hTokI
      · simpa only [holdsToken, Function.update_noteq hmi] using hm
    refine ⟨?_, ?_, msgLe⟩
    · intro k j hk hj
      exact uniq k j (hred k hk) (hred j hj)
    · intro k _
      exact noMsg i hTokI
  | release_step i l' snd h =>
    rcases release_spec i (List.finRange n) (c.locks i) l' snd h with
      ⟨hnh, hl, hsnd⟩ | ⟨hheld, hcase⟩
    · subst hl
      subst hsnd
      have hst : ∀ k : Fin n, ((Function.update c.locks i (c.locks i)) k).state
          = (c.locks k).state := by
        intro k
        rw [Function.update_eq_self]
      refine ⟨?_, ?_, ?_⟩
      · intro k j hk hj
        simp only [holdsToken, hst] at hk hj
        exact uniq k j hk hj
      · intro k hk
        simp only [holdsToken, hst] at hk
        simpa only [sendRel, List.append_nil] using noMsg k hk
      · simpa only [sendRel, List.append_nil] using msgLe
    · have hTokI : holdsToken c i := by
        rw [holdsToken, hheld]
        simp
      have hEmpty : c.tokMsgs = [] := noMsg i hTokI
      rcases hcase with ⟨hsnd, hstate⟩ | ⟨p, tok, hsnd, hstate⟩
      · subst hsnd
        have hred : ∀ m : Fin n, holdsToken
            { locks := Function.update c.locks i l',
              reqMsgs := c.reqMsgs, tokMsgs := c.tokMsgs ++ sendRel none } m →
            holdsToken c m := by
          intro m hm
          by_cases hmi : m = i
          · exact hmi ▸ hTokI
          · simpa only [holdsToken, Function.update_noteq hmi] using hm
        refine ⟨?_, ?_, ?_⟩
        · intro k j hk hj
          exact uniq k j (hred k hk) (hred j hj)
        · intro k _
          simp [sendRel, hEmpty]
        · simp [sendRel, hEmpty]
      · subst hsnd
        have hnone : ∀ m : Fin n, ¬ holdsToken
            { locks := Function.update c.locks i l',
              reqMsgs := c.reqMsgs,
              tokMsgs := c.tokMsgs ++ sendRel (some (p, tok)) } m := by
          intro m hm
          by_cases hmi : m = i
          · subst hmi
            apply hm
            simp [Function.update_same, hstate]
          · have hmc : holdsToken c m := by
              simpa only [holdsToken, Function.update_noteq hmi] using hm
            exact hmi (uniq m i hmc hTokI)
        refine ⟨?_, ?_, ?_⟩
        · intro k j hk _
          exact absurd hk (hnone k)
        · intro k hk
          exact absurd hk (hnone k)
        · simp [sendRel, hEmpty]
  | deliver_request pre post rcv t sender l' snd hm h =>
    rcases request_token_spec (c.locks rcv) t sender l' snd h with
      ⟨hpres, hstate, hsnd⟩ | ⟨hnp, hstate, hsnd⟩
    · have hTokR : holdsToken c rcv := by
        rw [holdsToken, hpres]
        simp
      have hEmpty : c.tokMsgs = [] := noMsg rcv hTokR
      subst hsnd
      have hnone : ∀ m : Fin n, ¬ holdsToken
          { locks := Function.update c.locks rcv l',
            reqMsgs := pre ++ post,
            tokMsgs := c.tokMsgs ++ sendFwd sender (some (c.locks rcv).token) } m := by
        intro m hmh
        by_cases hmi : m = rcv
        · subst hmi
          apply hmh
          simp [Function.update_same, hstate]
        · have hmc : holdsToken c m := by
            simpa only [holdsToken, Function.update_noteq hmi] using hmh
          exact hmi (uniq m rcv hmc hTokR)
      refine ⟨?_, ?_, ?_⟩
      · intro k j hk _
        exact absurd hk (hnone k)
      · intro k hk
        exact absurd hk (hnone k)
      · simp [sendFwd, hEmpty]
    · subst hsnd
      have hst : ∀ k : Fin n, ((Function.update c.locks rcv l') k).state
          = (c.locks k).state := by
        intro k
        by_cases hk : k = rcv
        · subst hk
          simp [Function.update_same, hstate]
        · simp [Function.update_noteq hk]
      refine ⟨?_, ?_, ?_⟩
      · intro k j hk hj
        simp only [holdsToken, hst] at hk hj
        exact uniq k j hk hj
      · intro k hk
        simp only [holdsToken, hst] at hk
        simpa only [sendFwd, List.append_nil] using noMsg k hk
      · simpa only [sendFwd, List.append_nil] using msgLe
  | deliver_token pre post rcv snap hm =>
    have hlen : (pre ++ (rcv, snap) :: post).length ≤ 1 := by
      rw [← hm]
      exact msgLe
    simp only [List.length_append, List.length_cons] at hlen
    have hpre : pre = [] := by
      cases pre with
      | nil => rfl
      | cons a l => simp at hlen; omega
    have hpost : post = [] := by
      cases post with
      | nil => rfl
      | cons a l => simp at hlen; omega
    subst hpre
    subst hpost
    have hnoOld : ∀ m : Fin n, ¬ holdsToken c m := by
      intro m hmc
      have h0 : c.tokMsgs = [] := noMsg m hmc
      rw [hm] at h0
      exact absurd h0 (by simp)
    refine ⟨?_, ?_, ?_⟩
    · intro k j hk hj
      have hred : ∀ m : Fin n, holdsToken
          { locks := Function.update c.locks rcv (obtain_token rcv (c.locks rcv) snap),
            reqMsgs := c.reqMsgs,
            tokMsgs := ([] : List (Fin n × (Fin n → Nat))) ++ [] } m →
          m = rcv := by
        intro m hmh
        by_contra hmi
        have hmc : holdsToken c m := by
          simpa only [holdsToken, Function.update_noteq hmi] using hmh
        exact hnoOld m hmc
      rw [hred k hk, hred j hj]
    · intro k _
      rfl
    · simp

/-- The invariant holds in every configuration reachable from a
configuration satisfying it. -/
theorem tokenInv_reachable {n : Nat} {c0 c : Config n} (h0 : TokenInv c0)
    (hr : Relation.ReflTransGen Step c0 c) : TokenInv c := by
  induction hr with
  | refl => exact h0
  | tail _ hstep ih => exact tokenInv_step ih hstep

/-- C1: for every sequence of interleaved acquire/release/request_token/
obtain_token steps across the `n` peers, started from the initial
configuration in which exactly one peer `hld` is `TOKEN_PRESENT`, every
other peer is `NO_TOKEN` and no message is in flight, at most one peer
is in state `TOKEN_HELD` in any reachable global configuration. -/
theorem C1_mutual_exclusion {n : Nat} (hld : Fin n) (c0 c : Config n)
    (hstates : ∀ i : Fin n,
      (c0.locks i).state = if i = hld then LockState.TOKEN_PRESENT else LockState.NO_TOKEN)
    (hmsg : c0.tokMsgs = [])
    (hr : Relation.ReflTransGen Step c0 c)
    (i j : Fin n)
    (hi : (c.locks i).state = LockState.TOKEN_HELD)
    (hj : (c.locks j).state = LockState.TOKEN_HELD) : i = j := by
  have hinv := tokenInv_reachable (tokenInv_init c0 hld hstates hmsg) hr
  refine hinv.1 i j ?_ ?_
  · show (c.locks i).state ≠ LockState.NO_TOKEN
    rw [hi]
    simp
  · show (c.locks j).state ≠ LockState.NO_TOKEN
    rw [hj]
    simp

/-- Start configuration used as C1 witness: one peer, the designated
holder. -/
def wCfg0 : Config 1 := initConfig 0

/-- Configuration after that peer calls `acquire` while idle-holding
the token: it routes its own token through `obtain_token` and ends in
`TOKEN_HELD`. -/
def wCfg1 : Config 1 :=
  { locks := Function.update wCfg0.locks 0
      (obtain_token 0 (bump (wCfg0.locks 0)) (bump (wCfg0.locks 0)).token),
    reqMsgs := wCfg0.reqMsgs,
    tokMsgs := wCfg0.tokMsgs }

theorem C1_mutual_exclusion_witness : (0 : Fin 1) = 0 :=
  C1_mutual_exclusion 0 wCfg0 wCfg1
    (by decide) rfl
    (Relation.ReflTransGen.single (Step.acquire_has_token wCfg0 0 (by decide)))
    0 0 (by decide) (by decide)

/-- A lock in `TOKEN_PRESENT` whose token map credits peer 1 with
logical time 7 while no request from peer 1 is recorded. -/
def c2Lock : Lock 2 :=
  { time := 0,
    token := fun j => if j = 1 then 7 else 0,
    request := fun _ => 0,
    state := LockState.TOKEN_PRESENT }

/-- C2, evaluated at the failing input: an inbound
`request_token(5, 1)` received in `TOKEN_PRESENT` raises `request[1]`
to 5, which is NOT strictly greater than the 7 recorded for peer 1 in
the token map, yet the code still forwards the token to peer 1 and
moves to `NO_TOKEN`; the claim requires the token to be kept in this
case. -/
theorem C2_request_token_forwards_unconditionally :
    (request_token c2Lock 5 1).1.state = LockState.NO_TOKEN ∧
      (request_token c2Lock 5 1).2 = some c2Lock.token ∧
      (request_token c2Lock 5 1).1.request 1 = 5 ∧
      ¬ (request_token c2Lock 5 1).1.request 1 > c2Lock.token 1 := by
  refine ⟨rfl, rfl, rfl, by decide⟩

/-- The find? correspondence for the release scan: the scan stops at
exactly the first listed peer whose recorded request timestamp strictly
exceeds its token-map entry. -/
theorem releaseScan_find {n : Nat} (own : Fin n) (l : Lock n) (ps : List (Fin n)) :
    (∀ p : Fin n,
      ps.find? (fun q => decide (l.request q > l.token q)) = some p →
      releaseScan own l ps =
        ({ l with state := LockState.NO_TOKEN,
                  token := Function.update l.token own l.time },
         some (p, Function.update l.token own l.time))) ∧
    (ps.find? (fun q => decide (l.request q > l.token q)) = none →
      releaseScan own l ps = (l, none)) := by
  induction ps with
  | nil => exact ⟨fun p hp => by simp at hp, fun _ => rfl⟩
  | cons q qs ih =>
    by_cases hq : l.request q > l.token q
    · constructor
      · intro p hp
        rw [List.find?_cons_of_pos _ (by simpa using hq)] at hp
        obtain rfl : q = p := by simpa using hp
        simp [releaseScan, hq]
      · intro hp
        rw [List.find?_cons_of_pos _ (by simpa using hq)] at hp
        simp at hp
    · constructor
      · intro p hp
        rw [List.find?_cons_of_neg _ (by simpa using hq)] at hp
        simpa [releaseScan, hq] using ih.1 p hp
      · intro hp
        rw [List.find?_cons_of_neg _ (by simpa using hq)] at hp
        simpa [releaseScan, hq] using ih.2 hp

/-- C3: a `release()` call made in `TOKEN_HELD` scans the
membership-table ids in ascending order (the scanned list is sorted and
a permutation of the table keys) for the first peer whose request
timestamp strictly exceeds its token-map entry; if one exists, the
token map is stamped at `own` with the current logical time, that whole
map is sent to exactly that peer, and the final state is `NO_TOKEN`;
otherwise nothing is sent and the final state is `TOKEN_PRESENT`. -/
theorem C3_release_scan {n : Nat} (own : Fin n) (peers : List (Fin n)) (l : Lock n)
    (h : l.state = LockState.TOKEN_HELD) :
    List.Sorted (fun a b => a ≤ b) (List.insertionSort (fun a b => a ≤ b) peers) ∧
    List.Perm (List.insertionSort (fun a b => a ≤ b) peers) peers ∧
    (∀ p : Fin n,
      (List.insertionSort (fun a b => a ≤ b) peers).find?
          (fun q => decide (l.request q > l.token q)) = some p →
      release own peers l =
        ({ l with state := LockState.NO_TOKEN,
                  token := Function.update l.token own l.time },
         some (p, Function.update l.token own l.time))) ∧
    ((List.insertionSort (fun a b => a ≤ b) peers).find?
        (fun q => decide (l.request q > l.token q)) = none →
      release own peers l = ({ l with state := LockState.TOKEN_PRESENT }, none)) := by
  refine ⟨List.sorted_insertionSort _ peers, List.perm_insertionSort _ peers, ?_, ?_⟩
  · intro p hp
    rw [release, if_pos h]
    exact (releaseScan_find own { l with state := LockState.TOKEN_PRESENT }
      (List.insertionSort (fun a b => a ≤ b) peers)).1 p hp
  · intro hp
    rw [release, if_pos h]
    exact (releaseScan_find own { l with state := LockState.TOKEN_PRESENT }
      (List.insertionSort (fun a b => a ≤ b) peers)).2 hp

/-- A held lock with one pending request: peer 1 asked at time 5, last
credited with the token at time 0. -/
def c3Lock : Lock 2 :=
  { time := 9,
    token := fun _ => 0,
    request := fun j => if j = 1 then 5 else 0,
    state := LockState.TOKEN_HELD }

theorem C3_release_scan_witness :
    c3Lock.state = LockState.TOKEN_HELD ∧
      release 0 [1] c3Lock =
        ({ c3Lock with state := LockState.NO_TOKEN,
                       token := Function.update c3Lock.token 0 c3Lock.time },
         some (1, Function.update c3Lock.token 0 c3Lock.time)) :=
  ⟨rfl, (C3_release_scan 0 [1] c3Lock rfl).2.2.1 1 (by decide)⟩

/-- C4: `obtain_token` replaces the token map with the received
snapshot and leaves `time` and `request` alone; when the local logical
time is strictly greater than the snapshot entry for self, the state
becomes `TOKEN_HELD` with `token[self]` restamped to the local time
(other entries taken from the snapshot); otherwise the state becomes
`TOKEN_PRESENT` with the snapshot installed unchanged. -/
theorem C4_obtain_token {n : Nat} (own : Fin n) (l : Lock n) (snap : Fin n → Nat) :
    (obtain_token own l snap).time = l.time ∧
    (obtain_token own l snap).request = l.request ∧
    (l.time > snap own →
      (obtain_token own l snap).state = LockState.TOKEN_HELD ∧
      (obtain_token own l snap).token own = l.time ∧
      ∀ j : Fin n, j ≠ own → (obtain_token own l snap).token j = snap j) ∧
    (¬ l.time > snap own →
      (obtain_token own l snap).state = LockState.TOKEN_PRESENT ∧
      (obtain_token own l snap).token = snap) := by
  by_cases hlt : l.time > snap own
  · refine ⟨by simp [obtain_token, hlt], by simp [obtain_token, hlt], ?_, fun hn => absurd hlt hn⟩
    intro _
    refine ⟨by simp [obtain_token, hlt], by simp [obtain_token, hlt, Function.update_same], ?_⟩
    intro j hj
    simp [obtain_token, hlt, Function.update_noteq hj]
  · refine ⟨by simp [obtain_token, hlt], by simp [obtain_token, hlt], fun hc => absurd hc hlt, ?_⟩
    intro _
    exact ⟨by simp [obtain_token, hlt], by simp [obtain_token, hlt]⟩

/-- A lock with a pending want (time 3) receiving a snapshot crediting
itself with time 1. -/
def c4Lock : Lock 1 :=
  { time := 3, token := fun _ => 0, request := fun _ => 0, state := LockState.NO_TOKEN }

/-- The snapshot received by `c4Lock`. -/
def c4Snap : Fin 1 → Nat := fun _ => 1

theorem C4_obtain_token_witness :
    c4Lock.time > c4Snap 0 ∧
      (obtain_token 0 c4Lock c4Snap).state = LockState.TOKEN_HELD ∧
      (obtain_token 0 c4Lock c4Snap).token 0 = c4Lock.time :=
  ⟨by decide,
    ((C4_obtain_token 0 c4Lock c4Snap).2.2.1 (by decide)).1,
    ((C4_obtain_token 0 c4Lock c4Snap).2.2.1 (by decide)).2.1⟩

/-- C10: calling `release()` in any state other than `TOKEN_HELD`
returns without raising and without touching any field: the guard
`if self.state is TOKEN_HELD` fails and the whole body is skipped, so
state, logical time, token map and request map are all unchanged and no
message is sent. -/
theorem C10_release_no_op {n : Nat} (own : Fin n) (peers : List (Fin n)) (l : Lock n)
    (h : l.state ≠ LockState.TOKEN_HELD) :
    release own peers l = (l, none) := by
  rw [release, if_neg h]

/-- A lock in `TOKEN_PRESENT`, used for the C10 witness. -/
def c10Lock : Lock 1 :=
  { time := 4, token := fun _ => 2, request := fun _ => 1,
    state := LockState.TOKEN_PRESENT }

theorem C10_release_no_op_witness :
    c10Lock.state ≠ LockState.TOKEN_HELD ∧ release 0 [] c10Lock = (c10Lock, none) :=
  ⟨by decide, C10_release_no_op 0 [] c10Lock (by decide)⟩

/-- Python dictionary lookup `d[k]` for a Nat-keyed dictionary modelled
as an insertion-ordered association list with unique keys; `none`
models a KeyError. -/
def dget : List (Nat × Nat) → Nat → Option Nat
  | [], _ => none
  | e :: es, k => if e.1 = k then some e.2 else dget es k

/-- Python dictionary assignment `d[k] = v`: overwrite in place when
the key is present, append otherwise. -/
def dset : List (Nat × Nat) → Nat → Nat → List (Nat × Nat)
  | [], k, v => [(k, v)]
  | e :: es, k, v => if e.1 = k then (k, v) :: es else e :: dset es k v

/-- Dictionary-level state of `DistributedLock`: the `token` and
`request` dictionaries exactly as the Python object stores them. -/
structure DLock where
  time : Nat
  token : List (Nat × Nat)
  request : List (Nat × Nat)
  state : LockState
deriving DecidableEq, Repr

/-- The state set up by `DistributedLock.__init__`. -/
def dlNew : DLock :=
  { time := 0, token := [], request := [], state := LockState.NO_TOKEN }

/-- `DistributedLock.initialize` (lines 33-57).  `peers` is the key
list of the membership table in insertion order; as deployed the name
server returns the registering peer itself in `get_peers`, so the
owner id can occur in this list.  `sorted(...)[0]` raises IndexError
on an empty table, modelled as `none`.  With CPython small-integer
caching, `first_peer is not self.owner.id` is an inequality test on
the ids.  The Python loop writes `token[pid] = 0` and
`request[pid] = 0` for each pid in one pass; the two dictionaries are
independent, so the pass is embedded as one fold per dictionary. -/
def dlInit (peers : List Nat) (ownId : Nat) (l : DLock) : Option DLock :=
  match (List.insertionSort (fun a b => a ≤ b) peers).head? with
  | none => none
  | some first =>
    if first ≠ ownId then
      some { l with
        token := peers.foldl (fun d pid => dset d pid 0) [(ownId, l.time)],
        request := peers.foldl (fun d pid => dset d pid 0) [(ownId, l.time)] }
    else
      some { l with token := [(ownId, l.time)], state := LockState.TOKEN_PRESENT }

/-- `DistributedLock.register_peer` (lines 67-74): add a zero request
entry for the new peer, and a zero token entry as well while the state
is `TOKEN_HELD` or `TOKEN_PRESENT`. -/
def dlRegister_peer (pid : Nat) (l : DLock) : DLock :=
  if l.state = LockState.TOKEN_HELD ∨ l.state = LockState.TOKEN_PRESENT then
    { l with request := dset l.request pid 0, token := dset l.token pid 0 }
  else
    { l with request := dset l.request pid 0 }

/-- Looking up the key just set returns the value just set. -/
theorem dget_dset_self (d : List (Nat × Nat)) (k v : Nat) :
    dget (dset d k v) k = some v := by
  induction d with
  | nil => simp [dget, dset]
  | cons e es ih =>
    by_cases he : e.1 = k
    · simp [dset, he, dget]
    · simp [dset, he, dget, ih]

/-- Setting one key leaves lookups of other keys unchanged. -/
theorem dget_dset_ne (d : List (Nat × Nat)) (k v k' : Nat) (h : k' ≠ k) :
    dget (dset d k v) k' = dget d k' := by
  induction d with
  | nil => simp [dget, dset, Ne.symm h]
  | cons e es ih =>
    by_cases he : e.1 = k
    · have h1 : ¬ (k = k') := fun hk => h hk.symm
      have h2 : ¬ (e.1 = k') := by rw [he]; exact h1
      simp [dset, he, dget, h1, h2]
    · simp [dset, he, dget, ih]

/-- Effect of the `token[pid] = 0` / `request[pid] = 0` loop of
`dlInit` on lookups. -/
theorem dget_foldl_dset0 (ps : List Nat) (d : List (Nat × Nat)) (k : Nat) :
    dget (ps.foldl (fun d pid => dset d pid 0) d) k =
      if k ∈ ps then some 0 else dget d k := by
  induction ps generalizing d with
  | nil => simp
  | cons p ps ih =>
    simp only [List.foldl_cons]
    rw [ih]
    by_cases hk : k ∈ ps
    · simp [hk]
    · by_cases hkp : k = p
      · subst hkp
        simp [hk, dget_dset_self]
      · simp [hk, hkp, dget_dset_ne _ _ _ _ hkp]

/-- C5 counterexample: a peer with id 3 whose membership table holds
peer 5 runs `initialize()`; it stays in `NO_TOKEN` and yet its token
dictionary now holds entries for itself and for peer 5 — the token map
is populated, not empty, in `NO_TOKEN`. -/
theorem C5_counterexample :
    dlInit [5] 3 dlNew =
      some { time := 0, token := [(3, 0), (5, 0)], request := [(3, 0), (5, 0)],
             state := LockState.NO_TOKEN } := by decide

/-- C5 amended: after every successful `initialize()`, the token map
contains an entry for the peer itself and is in particular non-empty,
whatever the resulting state is — token entries are not restricted to
`TOKEN_PRESENT`/`TOKEN_HELD`; the token map is empty only before
`initialize()`. -/
theorem C5_token_nonempty_after_init (peers : List Nat) (ownId : Nat) (l l' : DLock)
    (h : dlInit peers ownId l = some l') :
    (dget l'.token ownId).isSome = true ∧ l'.token ≠ [] := by
  rw [dlInit] at h
  split at h
  · exact absurd h (by simp)
  · rename_i first heq
    by_cases hf : first ≠ ownId
    · rw [if_pos hf] at h
      obtain rfl := Option.some.inj h
      have hget := dget_foldl_dset0 peers [(ownId, l.time)] ownId
      by_cases hmem : ownId ∈ peers
      · rw [if_pos hmem] at hget
        constructor
        · show (dget (peers.foldl (fun d pid => dset d pid 0) [(ownId, l.time)]) ownId).isSome
            = true
          rw [hget]
          rfl
        · show ¬ peers.foldl (fun d pid => dset d pid 0) [(ownId, l.time)] = []
          intro hnil
          rw [hnil] at hget
          simp [dget] at hget
      · rw [if_neg hmem] at hget
        have hbase : dget [(ownId, l.time)] ownId = some l.time := by simp [dget]
        rw [hbase] at hget
        constructor
        · show (dget (peers.foldl (fun d pid => dset d pid 0) [(ownId, l.time)]) ownId).isSome
            = true
          rw [hget]
          rfl
        · show ¬ peers.foldl (fun d pid => dset d pid 0) [(ownId, l.time)] = []
          intro hnil
          rw [hnil] at hget
          simp [dget] at hget
    · rw [if_neg hf] at h
      obtain rfl := Option.some.inj h
      exact ⟨by simp [dget], by simp⟩

/-- Result of the C5 witness run. -/
def c5Res : DLock :=
  { time := 0, token := [(3, 0), (5, 0)], request := [(3, 0), (5, 0)],
    state := LockState.NO_TOKEN }

theorem C5_token_nonempty_after_init_witness :
    dlInit [5] 3 dlNew = some c5Res ∧
      (dget c5Res.token 3).isSome = true ∧ c5Res.token ≠ [] :=
  ⟨by decide, C5_token_nonempty_after_init [5] 3 dlNew c5Res (by decide)⟩

/-- C6 counterexample: as deployed, `get_peers` includes the caller, so
the smallest-id peer sees its own id first in the sorted table and takes
the initial-holder branch of `initialize()`: peer 3 with table [3, 5]
ends in `TOKEN_PRESENT` with an empty `request` map (no entry for any
table peer, not even itself) and a token map lacking table peer 5. -/
theorem C6_counterexample :
    dlInit [3, 5] 3 dlNew =
      some { time := 0, token := [(3, 0)], request := [],
             state := LockState.TOKEN_PRESENT } ∧
    dget ([] : List (Nat × Nat)) 3 = none ∧
    dget [(3, 0)] 5 = none := by decide

/-- C6 amended: when the minimum of the sorted table differs from the
own id (every non-holder), `initialize()` gives both maps an entry for
the own id and for every table peer; but when the minimum equals the
own id (the designated initial token holder, reachable because the
deployed name server lists the caller in `get_peers`), `initialize()`
leaves the request map untouched — empty for a fresh lock — and gives
the token map only the owner entry. -/
theorem C6_map_domains_after_init (peers : List Nat) (ownId first : Nat) (l : DLock)
    (hfirst : (List.insertionSort (fun a b => a ≤ b) peers).head? = some first) :
    (first ≠ ownId →
      dlInit peers ownId l =
        some { l with
          token := peers.foldl (fun d pid => dset d pid 0) [(ownId, l.time)],
          request := peers.foldl (fun d pid => dset d pid 0) [(ownId, l.time)] } ∧
      ∀ k : Nat, k = ownId ∨ k ∈ peers →
        (dget (peers.foldl (fun d pid => dset d pid 0) [(ownId, l.time)]) k).isSome = true) ∧
    (first = ownId →
      dlInit peers ownId l =
        some { l with token := [(ownId, l.time)], state := LockState.TOKEN_PRESENT }) := by
  constructor
  · intro hf
    constructor
    · rw [dlInit]
      split
      · rename_i heq
        rw [hfirst] at heq
        exact absurd heq (by simp)
      · rename_i f heq
        rw [hfirst] at heq
        obtain rfl := Option.some.inj heq
        rw [if_pos hf]
    · intro k hk
      have hget := dget_foldl_dset0 peers [(ownId, l.time)] k
      by_cases hmem : k ∈ peers
      · rw [if_pos hmem] at hget
        rw [hget]
        rfl
      · rcases hk with rfl | hk2
        · rw [if_neg hmem] at hget
          rw [hget]
          simp [dget]
        · exact absurd hk2 hmem
  · intro hf
    rw [dlInit]
    split
    · rename_i heq
      rw [hfirst] at heq
      exact absurd heq (by simp)
    · rename_i f heq
      rw [hfirst] at heq
      obtain rfl := Option.some.inj heq
      rw [if_neg (fun hn => hn hf)]

/-- Result of the C6 witness run: non-holder branch for peer 3 with
table [5]. -/
def c6Res : DLock :=
  { time := 0, token := [(3, 0), (5, 0)], request := [(3, 0), (5, 0)],
    state := LockState.NO_TOKEN }

theorem C6_map_domains_after_init_witness :
    dlInit [5] 3 dlNew = some c6Res ∧
      (dget c6Res.token 5).isSome = true ∧
      (dget c6Res.request 3).isSome = true :=
  ⟨((C6_map_domains_after_init [5] 3 5 dlNew rfl).1 (by decide)).1,
    ((C6_map_domains_after_init [5] 3 5 dlNew rfl).1 (by decide)).2 5 (Or.inr (by decide)),
    ((C6_map_domains_after_init [5] 3 5 dlNew rfl).1 (by decide)).2 3 (Or.inl rfl)⟩

/-- JSON values carried by the line-delimited wire protocol. -/
inductive JVal
  | jnull
  | jbool (b : Bool)
  | num (n : Int)
  | str (s : String)
  | arr (l : List JVal)
  | obj (fields : List (String × JVal))

/-- Python exception outcomes relevant to the ORB request worker. -/
inductive PyExc
  | oserror (msg : String)
  | protocolError (msg : String)
  | attributeError (attr : String)
  | typeError
  | appError (name : String)
deriving DecidableEq, Repr

/-- Lookup in a decoded JSON object (`r["k"]` / `"k" in r.keys()`):
`none` models a missing key. -/
def jget : List (String × JVal) → String → Option JVal
  | [], _ => none
  | e :: es, k => if e.1 = k then some e.2 else jget es k

/-- The owner object of the skeleton, seen through `getattr`: its
callable public methods by name.  A method either returns a value or
raises. -/
def Owner : Type := List (String × (List JVal → Except PyExc JVal))

/-- `getattr(self.owner, method)`: `none` models the AttributeError
raised for a name the owner does not have. -/
def getMethod : Owner → String → Option (List JVal → Except PyExc JVal)
  | [], _ => none
  | m :: ms, s => if m.1 = s then some m.2 else getMethod ms s

/-- `json_dumps_result` (orb.py line 68). -/
def json_dumps_result (r : JVal) : JVal :=
  JVal.obj [("result", r)]

/-- `json_dumps_error` (orb.py line 71), built from the exception class
name and its `args`. -/
def json_dumps_error (name : String) (args : List JVal) : JVal :=
  JVal.obj [("error", JVal.obj [("name", JVal.str name), ("args", JVal.arr args)])]

/-- One inbound request line after `json.loads`: either the parse
raised `JSONDecodeError` (with the offending document, `""` for an
empty line) or produced a JSON value. -/
inductive ReqLine
  | badJson (doc : String)
  | decoded (v : JVal)

/-- `Request.process_request` (orb.py lines 84-97).  `Except.ok` is the
response line written back; `Except.error` is an exception escaping
`process_request`, which `run` does not catch, so the worker dies
without writing any response.  Only `OSError` is converted to an error
response; the `ProtocolError` raised inside the `JSONDecodeError`
handler (via `handle_JSONDecodeError`) and for a missing
`method`/`args` key, the `AttributeError` from `getattr` for an
unknown method, and every non-OSError exception raised by the owner
method all propagate.  A non-object request (no `.keys()`) and the
non-string-method / non-list-args shapes are coarsely modelled as the
AttributeError/TypeError they raise; no claim rests on those cases. -/
def process_request (owner : Owner) (line : ReqLine) : Except PyExc JVal :=
  match line with
  | ReqLine.badJson doc =>
    if doc = "" then Except.error (PyExc.protocolError "Received empty JSON!")
    else Except.error (PyExc.protocolError "The JSON received was unable to be decoded!")
  | ReqLine.decoded v =>
    match v with
    | JVal.obj r =>
      if (jget r "method").isNone || (jget r "args").isNone then
        Except.error (PyExc.protocolError "Bad stuff")
      else
        match jget r "method", jget r "args" with
        | some (JVal.str m), some (JVal.arr args) =>
          match getMethod owner m with
          | none => Except.error (PyExc.attributeError m)
          | some f =>
            match f args with
            | Except.ok res => Except.ok (json_dumps_result res)
            | Except.error (PyExc.oserror msg) =>
              Except.ok (json_dumps_error "OSError" [JVal.str msg])
            | Except.error e => Except.error e
        | _, _ => Except.error PyExc.typeError
    | _ => Except.error (PyExc.attributeError "keys")

/-- Owner used in the C7 evaluation: one method raising a non-OSError
exception and one raising an OSError. -/
def c7Owner : Owner :=
  [("boom", fun _ => Except.error (PyExc.appError "RuntimeError")),
   ("oserr", fun _ => Except.error (PyExc.oserror "unreachable"))]

/-- C7, evaluated at the failing inputs: a request naming a method the
owner lacks, a request whose method raises a non-OSError exception, a
malformed JSON line and a request missing `args` all make an exception
escape `process_request` — the worker terminates without producing an
error response — while only an `OSError` from the method is converted
into an error response as the claim demands for every failure. -/
theorem C7_worker_uncaught :
    process_request c7Owner
        (ReqLine.decoded (JVal.obj [("method", JVal.str "frobnicate"), ("args", JVal.arr [])]))
      = Except.error (PyExc.attributeError "frobnicate") ∧
    process_request c7Owner
        (ReqLine.decoded (JVal.obj [("method", JVal.str "boom"), ("args", JVal.arr [])]))
      = Except.error (PyExc.appError "RuntimeError") ∧
    process_request c7Owner (ReqLine.badJson "not json")
      = Except.error (PyExc.protocolError "The JSON received was unable to be decoded!") ∧
    process_request c7Owner (ReqLine.decoded (JVal.obj [("method", JVal.str "boom")]))
      = Except.error (PyExc.protocolError "Bad stuff") ∧
    process_request c7Owner
        (ReqLine.decoded (JVal.obj [("method", JVal.str "oserr"), ("args", JVal.arr [])]))
      = Except.ok (json_dumps_error "OSError" [JVal.str "unreachable"]) :=
  ⟨rfl, rfl, rfl, rfl, rfl⟩

/-- Failures a `Stub._rmi` call can raise while processing a response
line: the deliberately raised `ProtocolError`/`ExternalError` plus the
uncaught internal errors of `throw_ExternalError`. -/
inductive RmiExc
  | protocolError (msg : String)
  | externalError (name : JVal) (firstArg : JVal)
  | keyError (k : String)
  | indexError
  | typeError
  | attributeError

/-- One response line as read by `Stub._rmi`: either `json.loads`
raises (`""` for the empty-line case) or yields a value. -/
inductive RespLine
  | badJson (doc : String)
  | decoded (v : JVal)

/-- `throw_ExternalError` (orb.py lines 45-51): reads
`error["error"]`, then `errorFields["name"]`, then
`errorFields["args"][0]`.  An empty `args` list makes the subscript
raise IndexError instead of the intended ExternalError; a string
`args` yields its first character; subscripting other shapes raises
TypeError (coarsely modelled; no claim rests on those cases). -/
def throwExternal (response : List (String × JVal)) : Except RmiExc JVal :=
  match jget response "error" with
  | none => Except.error (RmiExc.keyError "error")
  | some (JVal.obj ef) =>
    match jget ef "name" with
    | none => Except.error (RmiExc.keyError "name")
    | some nameV =>
      match jget ef "args" with
      | none => Except.error (RmiExc.keyError "args")
      | some (JVal.arr []) => Except.error RmiExc.indexError
      | some (JVal.arr (a :: _)) => Except.error (RmiExc.externalError nameV a)
      | some (JVal.str s) =>
        if s.length = 0 then Except.error RmiExc.indexError
        else Except.error (RmiExc.externalError nameV (JVal.str (s.take 1)))
      | some _ => Except.error RmiExc.typeError
  | some _ => Except.error RmiExc.typeError

/-- `set(response.keys()) == set([s])` for a decoded JSON object:
since `json.loads` gives dictionaries with unique keys, the set of
keys equals the singleton exactly when the key list is non-empty and
every key equals `s`. -/
def keySetEq (ks : List String) (s : String) : Bool :=
  !ks.isEmpty && ks.all (fun k => k == s)

/-- The response-processing tail of `Stub._rmi` (orb.py lines
140-151): decode, validate the top-level key set, surface a remote
error via `throw_ExternalError`, otherwise return
`response["result"]`.  A decoded non-object has no `.keys()` and
raises AttributeError. -/
def rmiResponse (line : RespLine) : Except RmiExc JVal :=
  match line with
  | RespLine.badJson doc =>
    if doc = "" then Except.error (RmiExc.protocolError "Received empty JSON!")
    else Except.error (RmiExc.protocolError "The JSON received was unable to be decoded!")
  | RespLine.decoded v =>
    match v with
    | JVal.obj response =>
      let ks := response.map Prod.fst
      if !(keySetEq ks "error") && !(keySetEq ks "result") then
        Except.error (RmiExc.protocolError "Bad key(s):")
      else if ks.contains "error" then
        throwExternal response
      else
        match jget response "result" with
        | some r => Except.ok r
        | none => Except.error (RmiExc.keyError "result")
    | _ => Except.error RmiExc.attributeError

/-- Bool test for a protocol failure outcome of `_rmi`. -/
def isProtocolFailure : Except RmiExc JVal → Bool
  | Except.error (RmiExc.protocolError _) => true
  | _ => false

/-- Bool test for an external failure outcome of `_rmi`. -/
def isExternalFailure : Except RmiExc JVal → Bool
  | Except.error (RmiExc.externalError _ _) => true
  | _ => false

/-- The failing response for C8: key set exactly the singleton ERROR,
but the remote error carries an empty argument list. -/
def c8Bad : RespLine :=
  RespLine.decoded
    (JVal.obj [("error", JVal.obj [("name", JVal.str "E"), ("args", JVal.arr [])])])

/-- C8 counterexample: a response whose key set is exactly the ERROR
singleton but whose error object has empty `args` makes `_rmi` fail
with an IndexError from `errorFields["args"][0]`, not with the
external failure the claim promises. -/
theorem C8_counterexample :
    rmiResponse c8Bad = Except.error RmiExc.indexError ∧
      isExternalFailure (rmiResponse c8Bad) = false :=
  ⟨rfl, rfl⟩

/-- A key list that is entirely one string contains that string. -/
theorem keySetEq_contains {ks : List String} {s : String} (h : keySetEq ks s = true) :
    ks.contains s = true := by
  cases ks with
  | nil => simp [keySetEq] at h
  | cons a l =>
    simp only [keySetEq, Bool.and_eq_true, List.all_cons] at h
    have ha : a = s := by simpa using h.2.1
    subst ha
    rw [List.contains_cons]
    simp

/-- A key list that is entirely one string contains no other string. -/
theorem all_single_contains_ne {ks : List String} {s t : String}
    (h : ks.all (fun k => k == s) = true) (hne : t ≠ s) : ks.contains t = false := by
  induction ks with
  | nil => simp [List.contains]
  | cons a l ih =>
    simp only [List.all_cons, Bool.and_eq_true] at h
    have ha : a = s := by simpa using h.1
    rw [List.contains_cons]
    have hta : (t == a) = false := by
      rw [ha]
      simpa using hne
    rw [hta, ih h.2]
    rfl

/-- Reduction of `rmiResponse` on a decoded object whose key set is
exactly the ERROR singleton: the call runs `throw_ExternalError`. -/
theorem rmiResponse_error_keys {response : List (String × JVal)}
    (herr : keySetEq (response.map Prod.fst) "error" = true) :
    rmiResponse (RespLine.decoded (JVal.obj response)) = throwExternal response := by
  have hc := keySetEq_contains herr
  show (if (!(keySetEq (response.map Prod.fst) "error")
        && !(keySetEq (response.map Prod.fst) "result")) = true then
      (Except.error (RmiExc.protocolError "Bad key(s):") : Except RmiExc JVal)
    else if ((response.map Prod.fst).contains "error") = true then
      throwExternal response
    else
      match jget response "result" with
      | some r => Except.ok r
      | none => Except.error (RmiExc.keyError "result")) = throwExternal response
  rw [herr, if_neg (by simp), if_pos hc]

/-- C8 amended: an undecodable response (including the empty line) is
a protocol failure; a decoded object whose key set is neither exactly
the RESULT singleton nor exactly the ERROR singleton is a protocol
failure; a key set of exactly RESULT returns the decoded result value;
a key set of exactly ERROR raises the external failure carrying the
remote error name and its FIRST argument when the args array is
non-empty — but when args is the empty array the call fails with an
IndexError, not an external failure. -/
theorem C8_rmi_response_cases :
    (∀ doc : String,
      isProtocolFailure (rmiResponse (RespLine.badJson doc)) = true) ∧
    (∀ response : List (String × JVal),
      keySetEq (response.map Prod.fst) "error" = false →
      keySetEq (response.map Prod.fst) "result" = false →
      isProtocolFailure (rmiResponse (RespLine.decoded (JVal.obj response))) = true) ∧
    (∀ (response ef : List (String × JVal)) (nv a : JVal) (rest : List JVal),
      keySetEq (response.map Prod.fst) "error" = true →
      jget response "error" = some (JVal.obj ef) →
      jget ef "name" = some nv →
      jget ef "args" = some (JVal.arr (a :: rest)) →
      rmiResponse (RespLine.decoded (JVal.obj response))
        = Except.error (RmiExc.externalError nv a)) ∧
    (∀ (response ef : List (String × JVal)) (nv : JVal),
      keySetEq (response.map Prod.fst) "error" = true →
      jget response "error" = some (JVal.obj ef) →
      jget ef "name" = some nv →
      jget ef "args" = some (JVal.arr []) →
      rmiResponse (RespLine.decoded (JVal.obj response))
        = Except.error RmiExc.indexError) ∧
    (∀ (response : List (String × JVal)) (r : JVal),
      keySetEq (response.map Prod.fst) "result" = true →
      jget response "result" = some r →
      rmiResponse (RespLine.decoded (JVal.obj response)) = Except.ok r) := by
  refine ⟨?_, ?_, ?_, ?_, ?_⟩
  · intro doc
    by_cases h : doc = "" <;> simp [rmiResponse, isProtocolFailure, h]
  · intro response h1 h2
    simp [rmiResponse, h1, h2, isProtocolFailure]
  · intro response ef nv a rest herr hjerr hjname hjargs
    rw [rmiResponse_error_keys herr]
    unfold throwExternal
    rw [hjerr]
    dsimp only
    rw [hjname]
    dsimp only
    rw [hjargs]
  · intro response ef nv herr hjerr hjname hjargs
    rw [rmiResponse_error_keys herr]
    unfold throwExternal
    rw [hjerr]
    dsimp only
    rw [hjname]
    dsimp only
    rw [hjargs]
  · intro response r hres hjres
    have hc : (response.map Prod.fst).contains "error" = false := by
      have hall : (response.map Prod.fst).all (fun k => k == "result") = true := by
        simp only [keySetEq, Bool.and_eq_true] at hres
        exact hres.2
      exact all_single_contains_ne hall (by decide)
    show (if (!(keySetEq (response.map Prod.fst) "error")
          && !(keySetEq (response.map Prod.fst) "result")) = true then
        (Except.error (RmiExc.protocolError "Bad key(s):") : Except RmiExc JVal)
      else if ((response.map Prod.fst).contains "error") = true then
        throwExternal response
      else
        match jget response "result" with
        | some rr => Except.ok rr
        | none => Except.error (RmiExc.keyError "result")) = Except.ok r
    rw [hres, if_neg (by simp), if_neg (by rw [hc]; simp), hjres]

theorem C8_rmi_response_cases_witness :
    rmiResponse (RespLine.decoded
        (JVal.obj [("error", JVal.obj [("name", JVal.str "E"),
                                       ("args", JVal.arr [JVal.num 1])])]))
      = Except.error (RmiExc.externalError (JVal.str "E") (JVal.num 1)) :=
  C8_rmi_response_cases.2.2.1
    [("error", JVal.obj [("name", JVal.str "E"), ("args", JVal.arr [JVal.num 1])])]
    [("name", JVal.str "E"), ("args", JVal.arr [JVal.num 1])]
    (JVal.str "E") (JVal.num 1) [] rfl rfl rfl rfl

/-- `PeerList.destroy` (peerList.py lines 64-75): iterate the table in
insertion order, skip the own id, and invoke `unregister_peer(self_id)`
on each remote peer.  Each table entry carries the outcome its remote
call would have.  Returns the ids on which the call was attempted and
the overall outcome: the body has no per-call exception handler, so the
first raising call aborts the loop (the `finally` only releases the
mutex) and the exception propagates. -/
def plDestroy (selfId : Nat) : List (Nat × Except PyExc Unit) → List Nat × Except PyExc Unit
  | [] => ([], Except.ok ())
  | (pid, res) :: rest =>
    if pid ≠ selfId then
      match res with
      | Except.ok _ =>
        let r := plDestroy selfId rest
        (pid :: r.1, r.2)
      | Except.error e => ([pid], Except.error e)
    else
      plDestroy selfId rest

/-- C9, evaluated at the failing input: with peers [1, 2, 3] and the
call to peer 1 raising, `destroy()` attempts only peer 1 and the
exception propagates — peers 2 and 3 are never notified, unlike the
all-healthy run in which every peer is notified. -/
theorem C9_destroy_aborts :
    plDestroy 0 [(1, Except.error (PyExc.oserror "Connection refused")),
                 (2, Except.ok ()), (3, Except.ok ())]
      = ([1], Except.error (PyExc.oserror "Connection refused")) ∧
    plDestroy 0 [(1, Except.ok ()), (2, Except.ok ()), (3, Except.ok ())]
      = ([1, 2, 3], Except.ok ()) :=
  ⟨rfl, rfl⟩
